import Mathlib

/-! Verification of the opdlang bytecode VM, time-travel debugger and compiler
(shallow embedding of `src/vm.go` and the compiler in `src/unnamed/part_010`).

Modelling conventions:
* Go slices that are used as stacks (`Stack`, `history`) keep their top /
  most-recent element at the highest index; here they are Lean lists with the
  top at the *head*, so Go's `Stack[len(Stack)-1]` is the head of `stack`.
* Go maps with integer values (`sourceMap`, `lineBreakpoints`) return the zero
  value for a missing key; they are association lists here and lookups are
  wrapped with a `getD 0` / membership test to reproduce that default.
* A handler that returns a Go `error` is modelled by `StepResult.err` carrying
  the (already mutated) state that the executor would publish; a Go runtime
  panic (index out of range, integer divide by zero, failed type assertion)
  is modelled by `StepResult.panic`, which kills the process and publishes
  nothing.
* Go `int` values held in `Value.int` are modelled as unbounded `Int`; the
  claims checked here never exercise 64-bit overflow.
-/

/-- Tagged runtime value: `IntValue` or `StringValue{Index}` from `vm.go`. -/
inductive Value where
  | int : Int → Value
  | str : Nat → Value
deriving DecidableEq, Repr

/-- Model of `VMState` from `vm.go`.  `stack`, `locals` and the other slices are deep
copied by `Clone`; cloning is the identity on immutable Lean values. -/
structure VMState where
  pc : Nat
  stack : List Value
  locals : List Value
  memory : List Nat
  callStack : List Nat
  returnStack : List Nat
  strings : List String
  sourceLine : Nat
deriving DecidableEq, Repr

/-- Outcome of one instruction handler.  `ok s running` is a `nil` return with
the mutated state and the value of the `running` flag the handler leaves
behind (`executeHalt` clears it, every other handler leaves it `true`);
`err msg s` is a returned Go `error` together with the mutated state the
executor will publish; `panic msg` is a Go runtime panic. -/
inductive StepResult where
  | ok : VMState → Bool → StepResult
  | err : String → VMState → StepResult
  | panic : String → StepResult
deriving DecidableEq, Repr

/-- Go map read `m[k]` on an `int`-valued map: zero value for a missing key. -/
def smLookup (sm : List (Nat × Nat)) (pc : Nat) : Nat :=
  (List.lookup pc sm).getD 0

/-- Model of `executeAdd`: pops `b` (top) and `a`, dispatches on tags.  Two `IntValue`s
add; two `StringValue`s concatenate `a ++ b` and the result is appended to the
string table by `RegisterString` (which always appends, returning the old
length).  Mixed tags return an error after the pops. -/
def executeAdd (s : VMState) : StepResult :=
  match s.stack with
  | b :: a :: rest =>
    match a, b with
    | Value.int va, Value.int vb =>
        .ok { s with stack := Value.int (va + vb) :: rest } true
    | Value.str va, Value.str vb =>
        match s.strings.get? va, s.strings.get? vb with
        | some sa, some sb =>
            -- newIdx := vm.RegisterString(newStr); RegisterString appends and
            -- returns len(Strings)-1, i.e. the pre-append length.
            .ok { s with stack := Value.str s.strings.length :: rest,
                         strings := s.strings ++ [sa ++ sb] } true
        | _, _ => .panic "index out of range"
    | _, _ => .err "invalid operand types for add" { s with stack := rest }
  | _ => .err "stack underflow" s

/-- Model of `executeSub`: note the source binds `a` to the TOP of the stack and `b` to
the element below it, then pushes `a - b` (top minus second). -/
def executeSub (s : VMState) : StepResult :=
  match s.stack with
  | a :: b :: rest =>
    match a, b with
    | Value.int va, Value.int vb =>
        .ok { s with stack := Value.int (va - vb) :: rest } true
    | _, _ => .err "invalid operand types for sub" { s with stack := rest }
  | _ => .err "stack underflow" s

/-- Model of `executeMul`: pops `b` (top) and `a` (second), pushes `a * b`. -/
def executeMul (s : VMState) : StepResult :=
  match s.stack with
  | b :: a :: rest =>
    match a, b with
    | Value.int va, Value.int vb =>
        .ok { s with stack := Value.int (va * vb) :: rest } true
    | _, _ => .err "invalid operand types for mul" { s with stack := rest }
  | _ => .err "stack underflow" s

/-- Model of `executeDiv`: binds `a` to the top and `b` to the second element and
computes `a / b` with Go truncated division; Go panics when the divisor `b`
is zero (there is no zero test in the source). -/
def executeDiv (s : VMState) : StepResult :=
  match s.stack with
  | a :: b :: rest =>
    match a, b with
    | Value.int va, Value.int vb =>
        if vb = 0 then .panic "runtime error: integer divide by zero"
        else .ok { s with stack := Value.int (Int.tdiv va vb) :: rest } true
    | _, _ => .err "invalid operand types for div" { s with stack := rest }
  | _ => .err "stack underflow" s

/-- Model of `executeMod`: binds `a` to the top and `b` to the second element and
computes `a % b` (Go truncated remainder); Go panics when `b` is zero. -/
def executeMod (s : VMState) : StepResult :=
  match s.stack with
  | a :: b :: rest =>
    match a, b with
    | Value.int va, Value.int vb =>
        if vb = 0 then .panic "runtime error: integer divide by zero"
        else .ok { s with stack := Value.int (Int.tmod va vb) :: rest } true
    | _, _ => .err "invalid operand types for mod" { s with stack := rest }
  | _ => .err "stack underflow" s

/-- Model of `executeEq`: pops `b` (top) and `a`; same-tag pairs push `Int(0|1)`;
string operands are compared through the string table (an out-of-range index
would be a Go panic); mixed tags return an error. -/
def executeEq (s : VMState) : StepResult :=
  match s.stack with
  | b :: a :: rest =>
    match a, b with
    | Value.int va, Value.int vb =>
        .ok { s with stack := Value.int (if va = vb then 1 else 0) :: rest } true
    | Value.str va, Value.str vb =>
        match s.strings.get? va, s.strings.get? vb with
        | some sa, some sb =>
            .ok { s with stack := Value.int (if sa = sb then 1 else 0) :: rest } true
        | _, _ => .panic "index out of range"
    | _, _ => .err "invalid operand types for equality" { s with stack := rest }
  | _ => .err "stack underflow" s

/-- Model of `executeNeq`: pops `b` (top) and `a`; same-tag pairs push `Int(0|1)`.
On mixed tags the source falls out of the `switch` and returns `nil`:
both operands stay popped, nothing is pushed, and no error is reported. -/
def executeNeq (s : VMState) : StepResult :=
  match s.stack with
  | b :: a :: rest =>
    match a, b with
    | Value.int va, Value.int vb =>
        .ok { s with stack := Value.int (if va ≠ vb then 1 else 0) :: rest } true
    | Value.str va, Value.str vb =>
        match s.strings.get? va, s.strings.get? vb with
        | some sa, some sb =>
            .ok { s with stack := Value.int (if sa ≠ sb then 1 else 0) :: rest } true
        | _, _ => .panic "index out of range"
    | _, _ => .ok { s with stack := rest } true
  | _ => .err "stack underflow" s

/-- Model of `executeLt`: pops `b` (top) and `a` (second), pushes `Int(a < b)`;
mixed tags return an error. -/
def executeLt (s : VMState) : StepResult :=
  match s.stack with
  | b :: a :: rest =>
    match a, b with
    | Value.int va, Value.int vb =>
        .ok { s with stack := Value.int (if va < vb then 1 else 0) :: rest } true
    | _, _ => .err "invalid operand types for less than" { s with stack := rest }
  | _ => .err "stack underflow" s

/-- Model of `executeGt`: the source binds `a` to the TOP and `b` to the second element
and pushes `Int(a > b)` (top greater than second); on mixed tags it falls
through and returns `nil` with both operands popped and nothing pushed. -/
def executeGt (s : VMState) : StepResult :=
  match s.stack with
  | a :: b :: rest =>
    match a, b with
    | Value.int va, Value.int vb =>
        .ok { s with stack := Value.int (if va > vb then 1 else 0) :: rest } true
    | _, _ => .ok { s with stack := rest } true
  | _ => .err "stack underflow" s

/-- Model of `executeLte`: binds `a` to the top and `b` to the second element, pushes
`Int(a <= b)`; mixed tags silently return `nil` after the pops. -/
def executeLte (s : VMState) : StepResult :=
  match s.stack with
  | a :: b :: rest =>
    match a, b with
    | Value.int va, Value.int vb =>
        .ok { s with stack := Value.int (if va ≤ vb then 1 else 0) :: rest } true
    | _, _ => .ok { s with stack := rest } true
  | _ => .err "stack underflow" s

/-- Model of `executeGte`: binds `a` to the top and `b` to the second element, pushes
`Int(a >= b)`; mixed tags silently return `nil` after the pops. -/
def executeGte (s : VMState) : StepResult :=
  match s.stack with
  | a :: b :: rest =>
    match a, b with
    | Value.int va, Value.int vb =>
        .ok { s with stack := Value.int (if va ≥ vb then 1 else 0) :: rest } true
    | _, _ => .ok { s with stack := rest } true
  | _ => .err "stack underflow" s

/-- Convenience constructor for concrete states: `memory`, `callStack` and
`returnStack` are empty in every scenario considered here. -/
def mkState (pc : Nat) (stack locals : List Value) (strings : List String)
    (sourceLine : Nat) : VMState :=
  ⟨pc, stack, locals, [], [], [], strings, sourceLine⟩


/-- Model of `executePush`: reads one immediate byte and pushes it as an `IntValue`. -/
def executePush (bytecode : List Nat) (s : VMState) : StepResult :=
  if s.pc ≥ bytecode.length then .err "program counter out of bounds" s
  else
    let value := bytecode.getD s.pc 0
    .ok { s with stack := Value.int value :: s.stack, pc := s.pc + 1 } true

/-- Model of `executePushStr`: reads one immediate byte as a string index, checks it
against the table length, and pushes a `StringValue`. -/
def executePushStr (bytecode : List Nat) (s : VMState) : StepResult :=
  if s.pc ≥ bytecode.length then .err "program counter out of bounds" s
  else
    let strIdx := bytecode.getD s.pc 0
    if strIdx ≥ s.strings.length then .err "string index out of bounds" s
    else .ok { s with stack := Value.str strIdx :: s.stack, pc := s.pc + 1 } true

/-- Model of `executePop`: stores the top of stack into an existing local and pops. -/
def executePop (bytecode : List Nat) (s : VMState) : StepResult :=
  match s.stack with
  | [] => .err "stack underflow" s
  | top :: rest =>
    if s.pc ≥ bytecode.length then .err "program counter out of bounds" s
    else
      let varIdx := bytecode.getD s.pc 0
      if varIdx ≥ s.locals.length then .err "variable index out of bounds" s
      else .ok { s with locals := s.locals.set varIdx top, stack := rest,
                        pc := s.pc + 1 } true

/-- Model of `executeLoad`: pushes `locals[varIdx]`. -/
def executeLoad (bytecode : List Nat) (s : VMState) : StepResult :=
  if s.pc ≥ bytecode.length then .err "program counter out of bounds" s
  else
    let varIdx := bytecode.getD s.pc 0
    match s.locals.get? varIdx with
    | none => .err "variable index out of bounds" s
    | some v => .ok { s with stack := v :: s.stack, pc := s.pc + 1 } true

/-- Model of `executeStore`: when `varIdx >= len(locals)` the source appends exactly one
`nil` slot and then writes `locals[varIdx]`; with `varIdx = len(locals)` that
is an append of the stored value, with `varIdx > len(locals)` the write is out
of range and Go panics. -/
def executeStore (bytecode : List Nat) (s : VMState) : StepResult :=
  if s.pc ≥ bytecode.length then .err "program counter out of bounds" s
  else
    match s.stack with
    | [] => .err "stack underflow" s
    | top :: rest =>
      let varIdx := bytecode.getD s.pc 0
      if varIdx < s.locals.length then
        .ok { s with locals := s.locals.set varIdx top, stack := rest,
                     pc := s.pc + 1 } true
      else if varIdx = s.locals.length then
        .ok { s with locals := s.locals ++ [top], stack := rest,
                     pc := s.pc + 1 } true
      else .panic "index out of range"

/-- Big-endian 16-bit absolute jump target `(high << 8) | low` read at `pc`. -/
def readAddr (bytecode : List Nat) (pc : Nat) : Nat :=
  ((bytecode.getD pc 0) <<< 8) ||| bytecode.getD (pc + 1) 0

/-- Model of `executeJmp`: absolute jump to the big-endian address. -/
def executeJmp (bytecode : List Nat) (s : VMState) : StepResult :=
  if s.pc + 1 ≥ bytecode.length then .err "invalid jump address" s
  else .ok { s with pc := readAddr bytecode s.pc } true

/-- Model of `executeJmpIfZero`: pops the condition; jumps exactly when the popped
value is `Int(0)` (a Go interface equality, so any `StringValue` simply falls
through past the two address bytes with no error). -/
def executeJmpIfZero (bytecode : List Nat) (s : VMState) : StepResult :=
  match s.stack with
  | [] => .err "stack underflow" s
  | condition :: rest =>
    if s.pc + 1 ≥ bytecode.length then .err "invalid jump address" s
    else if condition = Value.int 0 then
      .ok { s with stack := rest, pc := readAddr bytecode s.pc } true
    else
      .ok { s with stack := rest, pc := s.pc + 2 } true

/-- The argument-collection loop of `executeCall`: `args[i]` is filled for `i`
from `argc-1` down to `0`, so the first value popped (the old TOS) lands at
the highest index.  Returns `none` on stack underflow mid-loop. -/
def popArgs : Nat → List Value → Option (List Value × List Value)
  | 0, st => some ([], st)
  | _ + 1, [] => none
  | n + 1, v :: st =>
    match popArgs n st with
    | some (args, rest) => some (args ++ [v], rest)
    | none => none

/-- Model of `executeCall`: reads `funcIdx` and `argc` (unchecked Go indexing — out of
range is a panic), pops `argc` arguments, invokes the registered host
function, pushes its single result and skips the two immediate bytes.
When `funcIdx` has no registered function the source appends `pc` to the call
stack, sets `pc` from `locals[pc]` via an `IntValue` type assertion (a panic
unless that local exists and is an `IntValue`) and returns an error.
On mid-loop underflow the source returns an error with the partially popped
stack; the claims never reach that state, so the pre-pop state is carried. -/
def executeCall (functions : List (Nat × (List Value → Value)))
    (bytecode : List Nat) (s : VMState) : StepResult :=
  match bytecode.get? s.pc, bytecode.get? (s.pc + 1) with
  | some funcIdx, some numArgs =>
    match List.lookup funcIdx functions with
    | some fn =>
      match popArgs numArgs s.stack with
      | some (args, rest) =>
          .ok { s with stack := fn args :: rest, pc := s.pc + 2 } true
      | none => .err "stack underflow while getting function arguments" s
    | none =>
      match s.locals.get? s.pc with
      | some (Value.int v) =>
          -- Go stores the raw int in PC; the run is already fatal here and the
          -- claims never reach this branch, so the value is clamped to Nat.
          .err "unknown function index"
            { s with callStack := s.callStack ++ [s.pc], pc := v.toNat + 1 }
      | some _ => .panic "interface conversion"
      | none => .panic "index out of range"
  | _, _ => .panic "index out of range"

/-- Model of `executeRet`: pops the return address from the call stack (last element of
the Go slice, head of the list here) and resumes after it. -/
def executeRet (s : VMState) : StepResult :=
  match s.callStack with
  | [] => .err "call stack underflow" s
  | addr :: rest => .ok { s with pc := addr + 1, callStack := rest } true

/-- Model of `executeHalt`: clears the running flag. -/
def executeHalt (s : VMState) : StepResult := .ok s false

/-- Model of `executeInstruction`: reads the opcode byte (unchecked Go indexing),
advances `pc` past it, and dispatches.  Opcode numbering follows the `Instr`
constant block of `vm.go`: PUSH=0, PUSH_STR=1, POP=2, ADD=3, SUB=4, MUL=5,
DIV=6, MOD=7, EQ=8, NEQ=9, LT=10, GT=11, LTE=12, GTE=13, LOAD=14, STORE=15,
JMP=16, JMP_IF_ZERO=17, CALL=18, RET=19, HALT=20. -/
def executeInstruction (functions : List (Nat × (List Value → Value)))
    (bytecode : List Nat) (s : VMState) : StepResult :=
  match bytecode.get? s.pc with
  | none => .panic "index out of range"
  | some instruction =>
    let s := { s with pc := s.pc + 1 }
    match instruction with
    | 0 => executePush bytecode s
    | 1 => executePushStr bytecode s
    | 2 => executePop bytecode s
    | 3 => executeAdd s
    | 4 => executeSub s
    | 5 => executeMul s
    | 6 => executeDiv s
    | 7 => executeMod s
    | 8 => executeEq s
    | 9 => executeNeq s
    | 10 => executeLt s
    | 11 => executeGt s
    | 12 => executeLte s
    | 13 => executeGte s
    | 14 => executeLoad bytecode s
    | 15 => executeStore bytecode s
    | 16 => executeJmp bytecode s
    | 17 => executeJmpIfZero bytecode s
    | 18 => executeCall functions bytecode s
    | 19 => executeRet s
    | 20 => executeHalt s
    | _ => .err "unknown instruction" s

/-- The breakpoint test of the `DebuggerCmdContinue` loop:
`currentLine := vm.sourceMap[pc]; if vm.lineBreakpoints[currentLine] break`.
A missing source-map entry yields line `0`, so only an explicit entry whose
line carries an enabled breakpoint can trigger a stop. -/
def breakOn (bps : List Nat) (sm : List (Nat × Nat)) (pc : Nat) : Bool :=
  smLookup sm pc ∈ bps

/-- The stopping condition of `stepToNextLine`:
`newLine := vm.sourceMap[pc]; newLine != currentLine && newLine != 0`. -/
def stepStopCond (sm : List (Nat × Nat)) (currentLine pc : Nat) : Bool :=
  smLookup sm pc ≠ currentLine && smLookup sm pc ≠ 0

/-- Result of a history-recording execution loop (`stepToNextLine` or the
continue loop): final state, history (most recent first), and the `running`
flag; `fail` is a propagated instruction error (executor clears `running` and
publishes the carried state); `crash` is a Go panic. -/
inductive LoopResult where
  | done : VMState → List VMState → Bool → LoopResult
  | fail : String → VMState → List VMState → LoopResult
  | crash : String → LoopResult
deriving DecidableEq, Repr

/-- The `DebuggerCmdContinue` loop of `execute`:
`for vm.running && pc < len(bytecode) { if breakpoint break; execute; append
history }`.  `fuel` bounds the number of iterations (the Go loop may diverge);
running out of fuel returns the intermediate state with `running` still set
exactly as if a breakpoint had stopped the loop there, so every claim is made
with enough fuel for the loop to stop by itself. -/
def continueLoop (functions : List (Nat × (List Value → Value)))
    (bytecode : List Nat) (sm : List (Nat × Nat)) (bps : List Nat) :
    Nat → VMState → List VMState → Bool → LoopResult
  | 0, s, hist, running => .done s hist running
  | fuel + 1, s, hist, running =>
    if running ∧ s.pc < bytecode.length then
      if breakOn bps sm s.pc then .done s hist running
      else
        match executeInstruction functions bytecode s with
        | .ok s₂ stepRunning =>
            continueLoop functions bytecode sm bps fuel s₂ (s₂ :: hist)
              (running && stepRunning)
        | .err msg s₂ => .fail msg s₂ hist
        | .panic msg => .crash msg
    else .done s hist running

/-- Model of `stepToNextLine`: records the pre-instruction state into history, executes,
and stops once the new `pc` maps to a different, non-zero source line, writing
that line into `SourceLine`.  The loop condition is only `pc < len(bytecode)`
(the `running` flag is threaded through but not consulted). -/
def stepToNextLine (functions : List (Nat × (List Value → Value)))
    (bytecode : List Nat) (sm : List (Nat × Nat)) (currentLine : Nat) :
    Nat → VMState → List VMState → Bool → LoopResult
  | 0, s, hist, running => .done s hist running
  | fuel + 1, s, hist, running =>
    if s.pc < bytecode.length then
      let hist₂ := s :: hist
      match executeInstruction functions bytecode s with
      | .ok s₂ stepRunning =>
          if stepStopCond sm currentLine s₂.pc then
            .done { s₂ with sourceLine := smLookup sm s₂.pc } hist₂
              (running && stepRunning)
          else
            stepToNextLine functions bytecode sm currentLine fuel s₂ hist₂
              (running && stepRunning)
      | .err msg s₂ => .fail msg s₂ hist₂
      | .panic msg => .crash msg
    else .done s hist running

/-- The pop loop of `stepToPreviousLine`: repeatedly removes the most recent
history snapshot; the first snapshot whose mapped line is non-zero and differs
from `currentLine` is returned with its `SourceLine` overwritten by that
mapped line.  Returns `none` when the history is drained without a match. -/
def popUntil (sm : List (Nat × Nat)) (currentLine : Nat) :
    List VMState → Option (VMState × List VMState)
  | [] => none
  | prev :: rest =>
    let newLine := smLookup sm prev.pc
    if newLine ≠ currentLine ∧ newLine ≠ 0 then
      some ({ prev with sourceLine := newLine }, rest)
    else popUntil sm currentLine rest

/-- Model of `stepToPreviousLine`: with empty history it returns immediately; otherwise
it runs the pop loop with `currentLine := vm.sourceMap[pc]`.  When no snapshot
matches, the history has been drained and `currentState` is left unchanged. -/
def stepToPreviousLine (sm : List (Nat × Nat)) (cur : VMState)
    (history : List VMState) : VMState × List VMState :=
  if history.isEmpty then (cur, history)
  else
    match popUntil sm (smLookup sm cur.pc) history with
    | some (s₂, rest) => (s₂, rest)
    | none => (cur, [])

/-- The `DebuggerCmdStepBack` branch of `execute`: `stepToPreviousLine` runs
only when history is non-empty; either way the (possibly unchanged) current
state is the one published. -/
def stepBackCmd (sm : List (Nat × Nat)) (cur : VMState)
    (history : List VMState) : VMState × List VMState :=
  if history.isEmpty then (cur, history)
  else stepToPreviousLine sm cur history

/-- The escape-processing loop of `unescapeString` over the quoted body:
`\n`, `\t`, `\r`, `\"` and `\\` decode to one character, any other
escaped character is kept verbatim as backslash-then-character, and a
trailing lone backslash is kept as-is (`i+1 < len(s)` guard). -/
def unescapeChars : List Char → List Char
  | [] => []
  | '\\' :: c :: rest =>
    (match c with
     | 'n' => ['\n']
     | 't' => ['\t']
     | 'r' => ['\r']
     | '"' => ['"']
     | '\\' => ['\\']
     | other => ['\\', other]) ++ unescapeChars rest
  | c :: rest => c :: unescapeChars rest

/-- Model of `unescapeString`: strips the surrounding quotes (`s[1:len(s)-1]`) and
processes escape sequences. -/
def unescapeString (s : String) : String :=
  String.mk (unescapeChars (s.data.drop 1).dropLast)

/-- The string-interning part of the compiler state: the `strings` map
(association list preserving insertion order) and the monotonic counter. -/
structure CompilerStrings where
  strings : List (String × Nat)
  nextString : Nat
deriving Repr

/-- Model of `internString`: unescape, reuse the existing index when the processed
contents are already interned, otherwise allocate `nextString`. -/
def internString (c : CompilerStrings) (s : String) : Nat × CompilerStrings :=
  let unescaped := unescapeString s
  match List.lookup unescaped c.strings with
  | some idx => (idx, c)
  | none =>
      (c.nextString,
       { strings := c.strings ++ [(unescaped, c.nextString)],
         nextString := c.nextString + 1 })

/-- One `registerLine` call at a statement start: the state is the compiler's
`currentLine` tracker and the accumulated `sourceMap`; an entry
`(currentPos, line)` is recorded only when the statement's line differs from
the tracker. -/
def registerLine (currentLine : Nat) (sm : List (Nat × Nat))
    (pos line : Nat) : Nat × List (Nat × Nat) :=
  if line ≠ currentLine then (line, sm ++ [(pos, line)])
  else (currentLine, sm)

/-- The sequence of `registerLine` calls a compilation performs, one per
statement in compile-traversal order; `events` pairs each statement's
`currentPos` with its source line. -/
def runRegisterLines (currentLine : Nat) (sm : List (Nat × Nat)) :
    List (Nat × Nat) → List (Nat × Nat)
  | [] => sm
  | (pos, line) :: rest =>
      let st := registerLine currentLine sm pos line
      runRegisterLines st.1 st.2 rest

/-- Looking a key up in an association list that does not contain it yet finds
the entry appended at the end. -/
theorem lookup_append_single {α β : Type} [BEq α] [LawfulBEq α]
    (l : List (α × β)) (k : α) (v : β) (h : List.lookup k l = none) :
    List.lookup k (l ++ [(k, v)]) = some v := by
  induction l with
  | nil => simp [List.lookup]
  | cons p t ih =>
    rw [List.cons_append, List.lookup]
    rw [List.lookup] at h
    cases hk : k == p.1 with
    | true => simp [hk] at h
    | false =>
      simp only [hk] at h ⊢
      exact ih h

/-- A successful association-list lookup returns the value of an entry of the
list. -/
theorem lookup_mem {α β : Type} [BEq α] [LawfulBEq α]
    {l : List (α × β)} {k : α} {v : β}
    (h : List.lookup k l = some v) : (k, v) ∈ l := by
  induction l with
  | nil => simp [List.lookup] at h
  | cons p t ih =>
    rw [List.lookup] at h
    cases hk : k == p.1 with
    | true =>
      simp only [hk] at h
      obtain ⟨k2, v2⟩ := p
      simp only at hk
      obtain rfl : k = k2 := by exact eq_of_beq hk
      obtain rfl : v2 = v := by simpa using h
      exact List.mem_cons_self _ _
    | false =>
      simp only [hk] at h
      exact List.mem_cons_of_mem _ (ih h)

/-- Model of `popArgs` on a stack of at least `n` values removes exactly the first `n`
and lists them bottom-up: the argument vector is the reversal of the popped
prefix. -/
theorem popArgs_eq (n : Nat) (st : List Value) (h : n ≤ st.length) :
    popArgs n st = some ((st.take n).reverse, st.drop n) := by
  induction n generalizing st with
  | zero => simp [popArgs]
  | succ n ih =>
    cases st with
    | nil => simp at h
    | cons v st =>
      rw [popArgs, ih st (by simpa using h)]
      simp

/-- Every state returned by the pop loop of `stepToPreviousLine` is a history
snapshot with its `SourceLine` replaced by the snapshot's mapped line, which
is non-zero and differs from the line the loop was asked to leave. -/
theorem popUntil_mem (sm : List (Nat × Nat)) (cl : Nat) (h : List VMState)
    (s₂ : VMState) (rest : List VMState)
    (heq : popUntil sm cl h = some (s₂, rest)) :
    ∃ s ∈ h, (smLookup sm s.pc ≠ cl ∧ smLookup sm s.pc ≠ 0)
      ∧ s₂ = { s with sourceLine := smLookup sm s.pc } := by
  induction h with
  | nil => simp [popUntil] at heq
  | cons prev t ih =>
    rw [popUntil] at heq
    by_cases hc : smLookup sm prev.pc ≠ cl ∧ smLookup sm prev.pc ≠ 0
    · refine ⟨prev, List.mem_cons_self _ _, hc, ?_⟩
      simp only [if_pos hc, Option.some.injEq, Prod.mk.injEq] at heq
      exact heq.1.symm
    · simp only [if_neg hc] at heq
      obtain ⟨s, hs, hcond, hval⟩ := ih heq
      exact ⟨s, List.mem_cons_of_mem _ hs, hcond, hval⟩

/-- C1: the claim says SUB, DIV and MOD pop the left operand `a` (pushed
first) and the right operand `b` (top of stack) and push `Int(a - b)`,
`Int(a / b)`, `Int(a % b)`.  The handlers actually bind `a` to the TOP of the
stack and `b` to the element below it and push `a - b`, `a / b`, `a % b`,
i.e. right-minus-left: with 5 pushed first and 3 on top, SUB pushes
`Int(3 - 5) = Int(-2)` instead of `Int(2)`, DIV with 7 first and 3 on top
pushes `Int(3 / 7) = Int(0)` instead of `Int(2)`, and MOD pushes
`Int(3 % 7) = Int(3)` instead of `Int(1)`. -/
theorem C1_sub_div_mod_swapped :
    executeSub (mkState 0 [Value.int 3, Value.int 5] [] [] 1)
      = .ok (mkState 0 [Value.int (-2)] [] [] 1) true
  ∧ executeDiv (mkState 0 [Value.int 3, Value.int 7] [] [] 1)
      = .ok (mkState 0 [Value.int 0] [] [] 1) true
  ∧ executeMod (mkState 0 [Value.int 3, Value.int 7] [] [] 1)
      = .ok (mkState 0 [Value.int 3] [] [] 1) true := by
  refine ⟨rfl, ?_, ?_⟩ <;> rfl

/-- C2: the claim says every comparison opcode errors on differently-tagged
operands.  `executeEq` and `executeLt` do, but `executeNeq`, `executeGt`,
`executeLte` and `executeGte` fall out of their type switches and return
`nil`: both operands are popped, nothing is pushed, no error is reported and
the run continues. -/
theorem C2_mixed_tag_comparisons_silent :
    executeNeq (mkState 0 [Value.int 1, Value.str 0] [] ["s"] 1)
      = .ok (mkState 0 [] [] ["s"] 1) true
  ∧ executeGt (mkState 0 [Value.int 1, Value.str 0] [] ["s"] 1)
      = .ok (mkState 0 [] [] ["s"] 1) true
  ∧ executeLte (mkState 0 [Value.str 0, Value.int 1] [] ["s"] 1)
      = .ok (mkState 0 [] [] ["s"] 1) true
  ∧ executeGte (mkState 0 [Value.str 0, Value.int 1] [] ["s"] 1)
      = .ok (mkState 0 [] [] ["s"] 1) true := by
  refine ⟨rfl, rfl, rfl, rfl⟩

/-- C3: the claim says DIV/MOD with a zero divisor return a runtime error
value.  The handlers contain no zero test.  Because they also bind `a` to the
top of the stack, a right operand `Int(0)` on top of `Int(7)` makes DIV
compute `0 / 7` and succeed with `Int(0)` — no error at all; and when the
operand actually used as the divisor (the element below the top) is zero, Go
integer division panics and the process crashes instead of returning an
error. -/
theorem C3_division_by_zero_panics :
    executeDiv (mkState 0 [Value.int 0, Value.int 7] [] [] 1)
      = .ok (mkState 0 [Value.int 0] [] [] 1) true
  ∧ executeDiv (mkState 0 [Value.int 7, Value.int 0] [] [] 1)
      = .panic "runtime error: integer divide by zero"
  ∧ executeMod (mkState 0 [Value.int 7, Value.int 0] [] [] 1)
      = .panic "runtime error: integer divide by zero" := by
  refine ⟨rfl, rfl, rfl⟩

/-- C4 counterexample: a step-back on a non-empty history whose single
snapshot has no source-map line (the map is empty, so every lookup is 0)
drains the history and leaves the current state untouched: the resulting pc
equals — is not strictly less than — the pre-step-back pc, and the resulting
state is not a stored snapshot. -/
theorem C4_counterexample_step_back :
    ([mkState 0 [Value.int 1] [] [] 1] : List VMState) ≠ []
  ∧ ¬ ((stepBackCmd [] (mkState 3 [] [] [] 1) [mkState 0 [Value.int 1] [] [] 1]).1.pc
        < (mkState 3 [] [] [] 1).pc
      ∧ (stepBackCmd [] (mkState 3 [] [] [] 1) [mkState 0 [Value.int 1] [] [] 1]).1
          ∈ [mkState 0 [Value.int 1] [] [] 1]) := by
  decide

/-- C4 amended: after a stepBack (issued with any history), the resulting
state is either the pre-step-back state unchanged — this covers the empty
history and the case in which no stored snapshot has a mapped line that is
non-zero and different from the current pc's mapped line, in which case the
history is drained — or it equals some stored snapshot in every field except
`SourceLine`, which is overwritten with the source map's line for that
snapshot's pc (a line that is non-zero and differs from the current pc's
mapped line). -/
theorem C4_step_back_amended (sm : List (Nat × Nat)) (cur : VMState)
    (history : List VMState) :
    (stepBackCmd sm cur history).1 = cur
  ∨ ∃ s ∈ history,
      (smLookup sm s.pc ≠ smLookup sm cur.pc ∧ smLookup sm s.pc ≠ 0)
      ∧ (stepBackCmd sm cur history).1 = { s with sourceLine := smLookup sm s.pc } := by
  rw [stepBackCmd]
  by_cases hemp : history.isEmpty
  · simp [hemp]
  · rw [if_neg hemp, stepToPreviousLine, if_neg hemp]
    cases hpop : popUntil sm (smLookup sm cur.pc) history with
    | none => exact Or.inl rfl
    | some p =>
      obtain ⟨s₂, rest⟩ := p
      obtain ⟨s, hs, hcond, hval⟩ := popUntil_mem sm _ history s₂ rest hpop
      exact Or.inr ⟨s, hs, hcond, hval⟩

/-- C5: CALL with a registered host-function index and at least `argc` stack
values pops exactly `argc` values into a left-to-right argument vector —
element `i` is the value that sat `argc-1-i` pops below the pre-call top of
stack — pushes the callable's single result, skips the two immediate bytes,
and leaves `stack_len_after = stack_len_before - argc + 1`. -/
theorem C5_call_pops_argc (functions : List (Nat × (List Value → Value)))
    (bytecode : List Nat) (s : VMState) (funcIdx numArgs : Nat)
    (fn : List Value → Value)
    (h1 : bytecode.get? s.pc = some funcIdx)
    (h2 : bytecode.get? (s.pc + 1) = some numArgs)
    (h3 : List.lookup funcIdx functions = some fn)
    (h4 : numArgs ≤ s.stack.length) :
    executeCall functions bytecode s
      = .ok { s with
              stack := fn ((s.stack.take numArgs).reverse) :: s.stack.drop numArgs,
              pc := s.pc + 2 } true
  ∧ (∀ i, i < numArgs →
      ((s.stack.take numArgs).reverse).get? i = s.stack.get? (numArgs - 1 - i))
  ∧ (fn ((s.stack.take numArgs).reverse) :: s.stack.drop numArgs).length
      = s.stack.length - numArgs + 1 := by
  refine ⟨?_, ?_, ?_⟩
  · simp only [executeCall, h1, h2, h3, popArgs_eq numArgs s.stack h4]
  · intro i hi
    have hlen : (s.stack.take numArgs).length = numArgs := by
      rw [List.length_take]; omega
    rw [List.get?_reverse (show i < (s.stack.take numArgs).length by omega), hlen]
    exact List.get?_take (by omega)
  · simp only [List.length_cons, List.length_drop]

/-- A host callable shaped like the builtin `print`: consumes its arguments
and returns `IntValue(0)`. -/
def hostPrint (args : List Value) : Value := Value.int 0

/-- Witness for C5: `CALL 0 2` on a stack holding `Int 1` (pushed first) and
`Int 2` (top), with `hostPrint` registered at index 0. -/
theorem C5_call_witness :
    executeCall [(0, hostPrint)] [18, 0, 2, 20]
        (mkState 1 [Value.int 2, Value.int 1] [] [] 1)
      = .ok { mkState 1 [Value.int 2, Value.int 1] [] [] 1 with
              stack := hostPrint ((([Value.int 2, Value.int 1] : List Value).take 2).reverse)
                :: ([Value.int 2, Value.int 1] : List Value).drop 2,
              pc := 1 + 2 } true :=
  (C5_call_pops_argc [(0, hostPrint)] [18, 0, 2, 20]
    (mkState 1 [Value.int 2, Value.int 1] [] [] 1) 0 2 hostPrint
    rfl rfl rfl (by decide)).1

/-- C6 counterexample: with the string table `["a", "b", "ab"]`, ADD on
`StringRef 0` (pushed first) and `StringRef 1` concatenates to `"ab"`, which
is already interned at index 2 — yet the VM appends a fourth, duplicate
entry and pushes `StringRef 3`; the claimed interning result (`StringRef 2`,
table unchanged) does not happen. -/
theorem C6_counterexample_add_strings :
    executeAdd (mkState 0 [Value.str 1, Value.str 0] [] ["a", "b", "ab"] 1)
      = .ok (mkState 0 [Value.str 3] [] ["a", "b", "ab", "ab"] 1) true
  ∧ executeAdd (mkState 0 [Value.str 1, Value.str 0] [] ["a", "b", "ab"] 1)
      ≠ .ok (mkState 0 [Value.str 2] [] ["a", "b", "ab"] 1) true := by
  refine ⟨rfl, by decide⟩

/-- C6 amended: ADD on two `StringRef`s (left operand pushed first, right on
top) pushes a `StringRef` to a freshly APPENDED table entry holding the
concatenation in push order; existing entries keep their indices; the result
index is always the pre-ADD table length — the table grows by one entry even
when the concatenated string already occurs in it (no interning/reuse). -/
theorem C6_add_strings_amended (s : VMState) (ia ib : Nat) (rest : List Value)
    (sa sb : String)
    (hstack : s.stack = Value.str ib :: Value.str ia :: rest)
    (ha : s.strings.get? ia = some sa) (hb : s.strings.get? ib = some sb) :
    executeAdd s
      = .ok { s with stack := Value.str s.strings.length :: rest,
                     strings := s.strings ++ [sa ++ sb] } true
  ∧ (s.strings ++ [sa ++ sb]).get? s.strings.length = some (sa ++ sb)
  ∧ ∀ j, j < s.strings.length →
      (s.strings ++ [sa ++ sb]).get? j = s.strings.get? j := by
  refine ⟨?_, List.get?_concat_length _ _, fun j hj => List.get?_append hj⟩
  obtain ⟨pc, stack, locals, memory, callStack, returnStack, strings, sourceLine⟩ := s
  simp only at hstack ha hb
  subst hstack
  simp only [executeAdd, ha, hb]

/-- Witness for C6: ADD on `StringRef 0` (`"x"`, pushed first) and
`StringRef 1` (`"y"`) appends `"xy"` at index 2 and pushes `StringRef 2`. -/
theorem C6_add_strings_witness :
    executeAdd (mkState 0 [Value.str 1, Value.str 0] [] ["x", "y"] 1)
      = .ok (mkState 0 [Value.str 2] [] ["x", "y", "xy"] 1) true :=
  (C6_add_strings_amended (mkState 0 [Value.str 1, Value.str 0] [] ["x", "y"] 1)
    0 1 [] "x" "y" rfl rfl rfl).1

/-- The effective source line of a pc as the SPEC describes it: the
source-map entry at the pc itself, or — when the pc has no entry — the entry
at the closest smaller pc that has one.  This definition follows the spec
wording ("the VM treats a missing entry as same line as the last recorded
entry at a lower pc") and exists only to be compared with what the code
does. -/
def specEffectiveLine (sm : List (Nat × Nat)) (pc : Nat) : Option Nat :=
  ((List.range (pc + 1)).reverse).findSome? fun p => List.lookup p sm

/-- C7 counterexample: with source map `{0 ↦ 2}` and a breakpoint on line 2,
the pc 2 has no map entry; its effective line in the spec sense is 2, but the
continue loop's breakpoint test reads line 0 there and does not stop: started
at pc 2 (bytecode `PUSH 5; PUSH 6; HALT`), continueRun executes the rest of
the program instead of pausing at pc 2. -/
theorem C7_counterexample_breakpoint :
    specEffectiveLine [(0, 2)] 2 = some 2
  ∧ breakOn [2] [(0, 2)] 2 = false
  ∧ continueLoop ([] : List (Nat × (List Value → Value))) [0, 5, 0, 6, 20]
      [(0, 2)] [2] 10 (mkState 2 [Value.int 5] [] [] 2) [] true
      = .done (mkState 5 [Value.int 6, Value.int 5] [] [] 2)
          [mkState 5 [Value.int 6, Value.int 5] [] [] 2,
           mkState 4 [Value.int 6, Value.int 5] [] [] 2] false := by
  refine ⟨rfl, rfl, rfl⟩

/-- C7 amended: a pc with no source-map entry reads line 0.  In stepNext's
stopping condition such a pc can never trigger a stop (it counts as "same
line"), but continueRun's breakpoint test compares the breakpoint set against
the raw lookup: at an unmapped pc it checks line 0, so as long as no
breakpoint is set on line 0 the continue loop never pauses there — whatever
the closest-preceding entry's line — and instead executes the instruction. -/
theorem C7_breakpoint_amended (functions : List (Nat × (List Value → Value)))
    (bytecode : List Nat) (sm : List (Nat × Nat)) (bps : List Nat) (fuel : Nat)
    (s s₂ : VMState) (hist : List VMState) (r : Bool) (currentLine : Nat)
    (hmiss : List.lookup s.pc sm = none) (h0 : (0 : Nat) ∉ bps)
    (hlen : s.pc < bytecode.length)
    (hstep : executeInstruction functions bytecode s = .ok s₂ r) :
    stepStopCond sm currentLine s.pc = false
  ∧ breakOn bps sm s.pc = false
  ∧ continueLoop functions bytecode sm bps (fuel + 1) s hist true
      = continueLoop functions bytecode sm bps fuel s₂ (s₂ :: hist) r := by
  have hsm : smLookup sm s.pc = 0 := by rw [smLookup, hmiss]; rfl
  have hbrk : breakOn bps sm s.pc = false := by
    rw [breakOn, hsm]
    exact decide_eq_false h0
  refine ⟨?_, hbrk, ?_⟩
  · rw [stepStopCond, hsm]
    simp
  · rw [continueLoop, if_pos ⟨rfl, hlen⟩, if_neg (by rw [hbrk]; exact Bool.false_ne_true), hstep]
    simp only [Bool.true_and]

/-- Witness for C7: the amended behaviour at the unmapped pc 2 of the
counterexample program. -/
theorem C7_breakpoint_witness :
    stepStopCond [(0, 2)] 2 (mkState 2 [Value.int 5] [] [] 2).pc = false
  ∧ breakOn [2] [(0, 2)] (mkState 2 [Value.int 5] [] [] 2).pc = false
  ∧ continueLoop ([] : List (Nat × (List Value → Value))) [0, 5, 0, 6, 20]
      [(0, 2)] [2] (3 + 1) (mkState 2 [Value.int 5] [] [] 2) [] true
      = continueLoop ([] : List (Nat × (List Value → Value))) [0, 5, 0, 6, 20]
          [(0, 2)] [2] 3 (mkState 4 [Value.int 6, Value.int 5] [] [] 2)
          [mkState 4 [Value.int 6, Value.int 5] [] [] 2] true :=
  C7_breakpoint_amended ([] : List (Nat × (List Value → Value)))
    [0, 5, 0, 6, 20] [(0, 2)] [2] 3 (mkState 2 [Value.int 5] [] [] 2)
    (mkState 4 [Value.int 6, Value.int 5] [] [] 2) [] true 2
    rfl (by decide) (by decide) rfl

/-- C8: compiler string interning is idempotent and keyed on the processed
contents: a second `internString` with any raw literal that unescapes to the
same contents (quotes stripped, the escapes `\n \t \r \" \\` decoded,
unknown escapes kept verbatim) returns the index the first call returned and
leaves the compiler's string state unchanged. -/
theorem C8_intern_idempotent (c : CompilerStrings) (s₁ s₂ : String)
    (h : unescapeString s₁ = unescapeString s₂) :
    (internString (internString c s₁).2 s₂).1 = (internString c s₁).1
  ∧ (internString (internString c s₁).2 s₂).2 = (internString c s₁).2 := by
  have h2 : unescapeString s₂ = unescapeString s₁ := h.symm
  cases hl : List.lookup (unescapeString s₁) c.strings with
  | some idx =>
    have e1 : internString c s₁ = (idx, c) := by
      simp only [internString, hl]
    have e2 : internString c s₂ = (idx, c) := by
      simp only [internString, h2, hl]
    rw [e1, e2]
    exact ⟨rfl, rfl⟩
  | none =>
    have e1 : internString c s₁
        = (c.nextString,
           ⟨c.strings ++ [(unescapeString s₁, c.nextString)], c.nextString + 1⟩) := by
      simp only [internString, hl]
    have hl2 : List.lookup (unescapeString s₂)
        (c.strings ++ [(unescapeString s₁, c.nextString)]) = some c.nextString := by
      rw [h2]
      exact lookup_append_single _ _ _ hl
    have e2 : internString
        (⟨c.strings ++ [(unescapeString s₁, c.nextString)], c.nextString + 1⟩ :
          CompilerStrings) s₂
        = (c.nextString,
           ⟨c.strings ++ [(unescapeString s₁, c.nextString)], c.nextString + 1⟩) := by
      simp only [internString, hl2]
    rw [e1, e2]
    exact ⟨rfl, rfl⟩

/-- Witness for C8: the raw literal containing backslash-n and the raw
literal containing a real newline decode to the same contents `a⏎b` and share
one index; re-interning changes nothing. -/
theorem C8_intern_witness :
    (internString (internString ⟨[], 0⟩ "\"a\\nb\"").2 "\"a\nb\"").1
      = (internString ⟨[], 0⟩ "\"a\\nb\"").1
  ∧ (internString (internString ⟨[], 0⟩ "\"a\\nb\"").2 "\"a\nb\"").2
      = (internString ⟨[], 0⟩ "\"a\\nb\"").2 :=
  C8_intern_idempotent ⟨[], 0⟩ _ _ rfl

/-- Invariant of the `registerLine` sequence: starting from a tracker value
that is at least 1 and no greater than every upcoming statement line, with the
statement lines non-decreasing (statements are compiled in textual order), no
recorded source-map entry carries line 1 — an entry is recorded only when the
line strictly exceeds the tracker, hence is at least 2. -/
theorem runRegisterLines_no_one (events : List (Nat × Nat)) :
    ∀ (c : Nat) (sm : List (Nat × Nat)),
      1 ≤ c → (∀ e ∈ events, c ≤ e.2) →
      List.Pairwise (fun p q : Nat × Nat => p.2 ≤ q.2) events →
      (∀ p ∈ sm, p.2 ≠ 1) →
      ∀ p ∈ runRegisterLines c sm events, p.2 ≠ 1 := by
  induction events with
  | nil =>
    intro c sm _ _ _ hsm
    simpa [runRegisterLines] using hsm
  | cons e rest ih =>
    intro c sm hc hcle hpair hsm
    obtain ⟨pos, line⟩ := e
    rw [runRegisterLines]
    simp only [registerLine]
    rcases List.pairwise_cons.mp hpair with ⟨hhead, htail⟩
    by_cases hne : line ≠ c
    · have hcl : c ≤ line := hcle (pos, line) (List.mem_cons_self _ _)
      have hline2 : 2 ≤ line := by omega
      rw [if_pos hne]
      refine ih line (sm ++ [(pos, line)]) (by omega)
        (fun e he => hhead e he) htail ?_
      intro p hp
      rcases List.mem_append.mp hp with hp | hp
      · exact hsm p hp
      · rcases List.mem_singleton.mp hp with rfl
        simp only
        omega
    · rw [if_neg hne]
      exact ih c sm hc (fun e he => hcle e (List.mem_cons_of_mem _ he)) htail hsm

/-- C9: when the first statement of a program begins on source line 1 (the
compiler's line tracker starts at 1), the statement lines seen by
`registerLine` in compile order are ≥ 1 and non-decreasing, so the compiler
records no source-map entry with line 1; consequently the continue loop's
breakpoint test for a breakpoint set on line 1 is false at every pc — a
line-1 breakpoint never stops continueRun. -/
theorem C9_no_line_one_breakpoint (events : List (Nat × Nat))
    (hfirst : ∀ e, events.head? = some e → e.2 = 1)
    (hpos : ∀ e ∈ events, 1 ≤ e.2)
    (hsorted : List.Pairwise (fun p q : Nat × Nat => p.2 ≤ q.2) events) :
    (∀ p ∈ runRegisterLines 1 [] events, p.2 ≠ 1)
  ∧ ∀ pc, breakOn [1] (runRegisterLines 1 [] events) pc = false := by
  have hmain := runRegisterLines_no_one events 1 [] le_rfl hpos hsorted
    (by intro p hp; simp at hp)
  refine ⟨hmain, fun pc => ?_⟩
  rw [breakOn]
  cases hl : List.lookup pc (runRegisterLines 1 [] events) with
  | none =>
    rw [smLookup, hl]
    decide
  | some l =>
    have hne : l ≠ 1 := hmain (pc, l) (lookup_mem hl)
    rw [smLookup, hl]
    simp [hne]

/-- Witness for C9: three statements at lines 1, 2, 2; the recorded map has a
single entry `(5 ↦ 2)`, and a breakpoint on line 1 fires neither at the
mapped pc 5 nor at the unmapped pc 3. -/
theorem C9_breakpoint_witness :
    breakOn [1] (runRegisterLines 1 [] [(0, 1), (5, 2), (9, 2)]) 5 = false
  ∧ breakOn [1] (runRegisterLines 1 [] [(0, 1), (5, 2), (9, 2)]) 3 = false := by
  have happ := C9_no_line_one_breakpoint [(0, 1), (5, 2), (9, 2)]
    (by intro e he; simp at he; rw [← he])
    (by decide) (by decide)
  exact ⟨happ.2 5, happ.2 3⟩

/-- C10: JMP_IF_ZERO pops the top of stack and — because the jump test is a
Go interface comparison with `IntValue(0)` — any `StringValue` (indeed any
value other than `Int(0)`) simply falls through past the two address bytes
with no runtime error; the jump is taken exactly when the popped value equals
`Int(0)`. -/
theorem C10_jmp_if_zero_non_int (bytecode : List Nat) (s : VMState) (v : Value)
    (rest : List Value) (hstack : s.stack = v :: rest)
    (hpc : s.pc + 1 < bytecode.length) :
    executeJmpIfZero bytecode s
      = .ok { s with stack := rest,
                     pc := if v = Value.int 0 then readAddr bytecode s.pc
                           else s.pc + 2 } true
  ∧ ∀ i : Nat, v = Value.str i →
      executeJmpIfZero bytecode s
        = .ok { s with stack := rest, pc := s.pc + 2 } true := by
  have hmain : executeJmpIfZero bytecode s
      = .ok { s with stack := rest,
                     pc := if v = Value.int 0 then readAddr bytecode s.pc
                           else s.pc + 2 } true := by
    obtain ⟨pc, stack, locals, memory, callStack, returnStack, strings, sourceLine⟩ := s
    simp only at hstack hpc
    subst hstack
    simp only [executeJmpIfZero]
    rw [if_neg (by omega)]
    by_cases hv : v = Value.int 0
    · rw [if_pos hv, if_pos hv]
    · rw [if_neg hv, if_neg hv]
  refine ⟨hmain, fun i hi => ?_⟩
  rw [hmain, if_neg (by rw [hi]; intro hcon; cases hcon)]

/-- Witness for C10: JMP_IF_ZERO at pc 1 of `[17, 0, 9]` with `StringRef 0`
on top pops it and falls through to pc 3. -/
theorem C10_jmp_if_zero_witness :
    executeJmpIfZero [17, 0, 9] (mkState 1 [Value.str 0] [] ["x"] 1)
      = .ok (mkState (1 + 2) [] [] ["x"] 1) true :=
  (C10_jmp_if_zero_non_int [17, 0, 9] (mkState 1 [Value.str 0] [] ["x"] 1)
    (Value.str 0) [] rfl (by decide)).2 0 rfl
